import Mathlib

/-!
Verification of the incremental invoice-synchronization pipeline
(src/data_pipeline/main.py) against its natural-language specification.

The pipeline is embedded shallowly:

* the DuckDB table of canonical records becomes a list of InvoiceRecord;
* the glob over existing parquet artifacts becomes a list of files, each a
  list of records;
* the MySQL extraction query becomes a filter over PaymentInvoice rows plus
  a row-shaping function (selectRow);
* the pandas transformations become plain functions on strings and integers;
* timestamps are modelled as integers and SQL NULL as Option;
* float values are modelled as exact rationals together with explicit
  round-to-nearest-even functions at 24 and 53 significant bits (f32, f64),
  so the binary64 parse, the pandas downcast to float32, the round(2) step
  and the 32-bit FLOAT store column are all reflected in the model.
-/

set_option maxRecDepth 4000

/-- Canonical record of the historical store, mirroring the column list of the
table billing_status_summary_historical created in main.py (lines 31 to 47).
Timestamps are integers, payment_date is nullable. -/
structure InvoiceRecord where
  invoice_id : String
  company_id : String
  company_name : String
  billing_period : String
  invoice_generation : Int
  due_date : Int
  payment_date : Option Int
  status_invoice : String
  status_process : String
  payment_type : String
  amount : Rat
  updated_at : Int
  inserted_at : Int
deriving Repr, DecidableEq

/-- Keys of a store, in order: the invoice_id column. -/
def storeKeys (l : List InvoiceRecord) : List String :=
  l.map (fun r => r.invoice_id)

/-- Key uniqueness of a store: no invoice_id occurs twice. -/
def nodupKeys (l : List InvoiceRecord) : Prop :=
  (storeKeys l).Nodup

instance nodupKeysDecidable (l : List InvoiceRecord) : Decidable (nodupKeys l) :=
  inferInstanceAs (Decidable (storeKeys l).Nodup)

/-- The SET list of the UPDATE statement (main.py lines 179 to 192): the target
record keeps invoice_id, company_id, company_name and billing_period (absent
from the SET list) and takes every listed field, inserted_at included, from the
matching source record. -/
def overwriteFromDelta (t s : InvoiceRecord) : InvoiceRecord :=
  { t with
    invoice_generation := s.invoice_generation
    due_date := s.due_date
    payment_date := s.payment_date
    status_invoice := s.status_invoice
    status_process := s.status_process
    payment_type := s.payment_type
    amount := s.amount
    updated_at := s.updated_at
    inserted_at := s.inserted_at }

/-- Effect of the UPDATE statement on one target record: if some delta record
has the same invoice_id, overwrite the SET fields from it, else keep the record.
The delta batch is key-unique by construction of the source query, so find? is
an exact model of the SQL join on invoice_id. -/
def applyUpdate (delta : List InvoiceRecord) (t : InvoiceRecord) : InvoiceRecord :=
  match delta.find? (fun s => s.invoice_id == t.invoice_id) with
  | some s => overwriteFromDelta t s
  | none => t

/-- Whether a store contains a record with the given key. -/
def hasKey (store : List InvoiceRecord) (k : String) : Bool :=
  store.any (fun t => t.invoice_id == k)

/-- The UPDATE statement applied to the whole store (main.py lines 179 to 192). -/
def updatePhase (store delta : List InvoiceRecord) : List InvoiceRecord :=
  store.map (applyUpdate delta)

/-- The INSERT statement (main.py lines 194 to 200): delta records whose
invoice_id has no match in the given store, via the LEFT JOIN anti-join. -/
def insertPhase (store delta : List InvoiceRecord) : List InvoiceRecord :=
  delta.filter (fun s => !(hasKey store s.invoice_id))

/-- The upsert of main.py lines 178 to 201: the UPDATE runs first, then the
INSERT anti-joins against the already-updated table. -/
def upsert (store delta : List InvoiceRecord) : List InvoiceRecord :=
  let updated := updatePhase store delta
  updated ++ insertPhase updated delta

/-- Outcome of the watermark-resolution block (main.py lines 28 to 65):
whether the empty fixed-schema table was created, and the updated_at filter.
filter = none models the empty filter string; filter = some w models the
string AND payment_invoice.updated_at greater than the rendered w, where
w = none renders the SQL NULL obtained from MAX over zero records. -/
structure ResolverOutcome where
  initializedEmptyStore : Bool
  filter : Option (Option Int)
deriving Repr, DecidableEq

/-- SQL MAX over a column: NULL on the empty table, else the maximum. -/
def sqlMax : List Int → Option Int
  | [] => none
  | a :: l =>
    some (match sqlMax l with
      | none => a
      | some m => max a m)

/-- The watermark resolver (main.py lines 28 to 65). The glob result is
modelled as the list of existing parquet files, each a list of records. The
branch is taken on emptiness of the file list alone; otherwise the watermark
is MAX(updated_at) over all records of all files read together. -/
def resolveWatermark (files : List (List InvoiceRecord)) : ResolverOutcome :=
  if files.isEmpty then
    { initializedEmptyStore := true, filter := none }
  else
    { initializedEmptyStore := false
      filter := some (sqlMax ((files.flatten).map (fun r => r.updated_at))) }

/-- Raw source row of the onfly.payment_invoice table, with source-native
types: nullable columns are Option, the amount is the minor-unit integer,
the type is the raw code. -/
structure PaymentInvoice where
  id : Nat
  company_id : Nat
  created_at : Int
  due_date : Int
  updated_at : Option Int
  status : String
  process : Option String
  amount : Int
  type : Int
  description : String
  deleted_at : Option Int
deriving Repr, DecidableEq

/-- Row of the onfly.companies table (only the columns the query reads). -/
structure Company where
  id : Nat
  nome : String
deriving Repr, DecidableEq

/-- The watermark condition of the WHERE clause: with no filter every row
passes; with a NULL watermark the comparison is never true; with a real
watermark only rows with a non-null updated_at strictly greater pass. -/
def passesWatermark : Option (Option Int) → PaymentInvoice → Bool
  | none, _ => true
  | some none, _ => false
  | some (some w), r =>
    match r.updated_at with
    | some u => decide (w < u)
    | none => false

/-- Row filter of billing_query (main.py lines 100 to 104): soft-deleted rows
are excluded and the watermark condition applies; SELECT DISTINCT is the final
dedup. The inner ORDER BY does not change which rows are returned. -/
def extractRows (filt : Option (Option Int)) (rows : List PaymentInvoice) :
    List PaymentInvoice :=
  (rows.filter (fun r => r.deleted_at.isNone && passesWatermark filt r)).dedup

/-- The CASE expression for payment_date (main.py lines 81 to 84): the source
updated_at when the status is paid, NULL otherwise. -/
def paymentDateCase (inv : PaymentInvoice) : Option Int :=
  if inv.status = "paid" then inv.updated_at else none

/-- The CASE expression for payment_type (main.py lines 89 to 93). -/
def paymentTypeCase (t : Int) : String :=
  if t = 1 then "Boleto"
  else if t = 2 then "Cartão de Crédito"
  else ""

/-- Decimal digit character for a digit below ten. -/
def digitChar : Nat → Char
  | 0 => '0'
  | 1 => '1'
  | 2 => '2'
  | 3 => '3'
  | 4 => '4'
  | 5 => '5'
  | 6 => '6'
  | 7 => '7'
  | 8 => '8'
  | _ => '9'

/-- Thousands grouping of MySQL FORMAT, on a little-endian digit list: a comma
is inserted after every third digit from the right. -/
def groupRevDigits : List Char → Nat → List Char
  | [], _ => []
  | c :: rest, k =>
    if k = 3 then ',' :: c :: groupRevDigits rest 1
    else c :: groupRevDigits rest (k + 1)

/-- Integer part rendering of MySQL FORMAT: decimal digits with thousands
separators, big-endian. -/
def natGrouped (m : Nat) : List Char :=
  if m = 0 then ['0']
  else (groupRevDigits ((Nat.digits 10 m).map digitChar) 0).reverse

/-- Two-digit fractional rendering of a remainder below one hundred. -/
def twoDigits (r : Nat) : List Char :=
  [digitChar (r / 10), digitChar (r % 10)]

/-- MySQL FORMAT(amount / 100, 2) (main.py line 88): the minor-unit integer
divided by one hundred, written with exactly two fractional digits and
thousands separators in the integer part. The quotient of an integer by 100
has at most two decimal places, so FORMAT performs no rounding here and the
rendering is computed directly from quotient and remainder by one hundred. -/
def formatAmount (cents : Int) : String :=
  String.mk ((if cents < 0 then ['-'] else []) ++
    natGrouped (cents.natAbs / 100) ++ '.' :: twoDigits (cents.natAbs % 100))

/-- The str.replace of commas by nothing (main.py line 143). -/
def stripCommas (s : String) : String :=
  String.mk (s.data.filter (fun c => c != ','))

/-- Value of a big-endian decimal digit string. -/
def digitsVal (l : List Char) : Nat :=
  l.foldl (fun a c => 10 * a + (c.toNat - 48)) 0

/-- Digit-run parsing shared by parseDecimal: with the sign already consumed,
accepts a nonempty digit run, optionally followed by a dot and a fractional
digit run, and yields the exact rational value. -/
def parseDecCore (neg : Bool) (cs : List Char) : Option Rat :=
  if cs.takeWhile (fun c => c != '.') = [] then none
  else if !((cs.takeWhile (fun c => c != '.')).all Char.isDigit) then none
  else
    match cs.dropWhile (fun c => c != '.') with
    | [] =>
      some ((if neg then (-1 : Rat) else 1) *
        (digitsVal (cs.takeWhile (fun c => c != '.')) : Rat))
    | _ :: frac =>
      if frac.all Char.isDigit then
        some ((if neg then (-1 : Rat) else 1) *
          ((digitsVal (cs.takeWhile (fun c => c != '.')) : Rat) +
            (digitsVal frac : Rat) / (10 : Rat) ^ frac.length))
      else none

/-- Decimal-literal parsing on the subset of literals the format step
produces: an optional leading minus sign, a nonempty run of digits, and an
optional fractional digit run after a dot, read as its exact rational value.
pd.to_numeric (main.py line 143) parses such a literal to the nearest binary64
float, that is to f64 of this value; the float steps are modelled below. -/
def parseDecimal (s : String) : Option Rat :=
  if s.data.head? = some '-' then parseDecCore true s.data.tail
  else parseDecCore false s.data

/-- Plain big-endian decimal rendering of a natural number: the comma-free
residue of natGrouped. -/
def plainInt (m : Nat) : List Char :=
  if m = 0 then ['0'] else ((Nat.digits 10 m).map digitChar).reverse

/-- Rounding of a rational to two decimal places with standard rounding: the
decimal reading of a stored value that the claim speaks about. The pandas
round(2) of the program is the float computation npRound2 below. -/
def round2 (q : Rat) : Rat :=
  ((round (q * 100) : Int) : Rat) / 100

/-- Bit length with structural fuel: the recursion halves the argument, so
the argument itself is enough fuel. -/
def bitLenAux : Nat → Nat → Nat
  | 0, _ => 0
  | fuel + 1, n => if n = 0 then 0 else bitLenAux fuel (n / 2) + 1

/-- Number of binary digits of a natural number. -/
def bitLen (n : Nat) : Nat := bitLenAux n n

/-- Floor of the base-two logarithm of a nonzero rational, computed through a
fixed 200-bit shift; meaningful whenever the absolute value is at least two to
the minus two hundred, which holds for every value of the amount pipeline. -/
def elog2 (x : Rat) : Int :=
  (bitLen (⌊|x| * (2 : Rat) ^ (200 : Nat)⌋.toNat) : Int) - 1 - 200

/-- Round half to even to an integer, as np.rint does. -/
def rne (q : Rat) : Int :=
  if q - ⌊q⌋ < 1 / 2 then ⌊q⌋
  else if 1 / 2 < q - ⌊q⌋ then ⌊q⌋ + 1
  else if ⌊q⌋ % 2 = 0 then ⌊q⌋ else ⌊q⌋ + 1

/-- IEEE-style round to nearest, ties to even, at p significant binary digits:
the rounding a binary float of precision p applies to an exact value. The
exponent range (overflow, subnormals) is omitted: every value of the amount
pipeline is mid-range. -/
def roundPrec (p : Nat) (x : Rat) : Rat :=
  if x = 0 then 0
  else
    let e : Int := elog2 x - (p - 1 : Nat)
    let m : Int := rne (|x| * (2 : Rat) ^ (-e))
    (if x < 0 then -1 else 1) * (m : Rat) * (2 : Rat) ^ e

/-- Binary64 rounding: the result of parsing a decimal literal with
pd.to_numeric and of float64 series arithmetic (main.py line 143). -/
def f64 (x : Rat) : Rat := roundPrec 53 x

/-- Binary32 rounding: the FLOAT amount column of the historical table
(main.py line 43) and float32 series arithmetic. -/
def f32 (x : Rat) : Rat := roundPrec 24 x

/-- The downcast step of pd.to_numeric (main.py line 143): the parsed binary64
value is cast to binary32 and kept when within the pandas absolute tolerance
of five times ten to the minus four for 4-byte floats; the Bool records the
resulting dtype, true for float32. pandas applies the tolerance check to the
whole batch at once; it is modelled per value, and the theorems below hold for
either dtype outcome. -/
def toNumericDowncast (x : Rat) : Rat × Bool :=
  if |f32 (f64 x) - f64 x| ≤ 5 / 10000 then (f32 (f64 x), true)
  else (f64 x, false)

/-- The pandas Series round(2) (main.py line 143), which numpy computes as
multiply by one hundred, round to the nearest integer, divide by one hundred,
all in the series dtype of precision p. -/
def npRound2 (p : Nat) (x : Rat) : Rat :=
  roundPrec p ((rne (roundPrec p (x * 100)) : Rat) / 100)

/-- End-to-end stored amount for a source minor-unit integer: the FORMAT
literal (main.py line 88), comma stripping, numeric conversion with float
downcast and round(2) in the resulting dtype (main.py line 143), and the cast
into the 32-bit FLOAT amount column of the historical table (main.py line 43,
applied by the INSERT and UPDATE of lines 178 to 201). -/
def storedAmount (n : Int) : Option Rat :=
  (parseDecimal (stripCommas (formatAmount n))).map (fun v =>
    let d := toNumericDowncast v
    f32 (npRound2 (if d.2 then 24 else 53) d.1))

/-- Whitespace class of the regex backslash-s, ASCII range. -/
def isSpaceChar (c : Char) : Bool :=
  c == ' ' || c == '\t' || c == '\n' || c == '\r' || c == '\x0b' || c == '\x0c'

/-- Replacement of every maximal whitespace run by a single space, the
str.replace with a one-or-more whitespace pattern (main.py lines 111 and 116);
the flag records whether the previous character was whitespace. -/
def collapseWsGo : Bool → List Char → List Char
  | _, [] => []
  | prevWs, c :: rest =>
    if isSpaceChar c then
      if prevWs then collapseWsGo true rest
      else ' ' :: collapseWsGo true rest
    else c :: collapseWsGo false rest

/-- Whitespace collapsing on strings. -/
def collapseWs (s : String) : String :=
  String.mk (collapseWsGo false s.data)

/-- Leftmost non-overlapping matches of the date pattern, two digits, slash,
two digits, slash, four digits, as re.findall computes them (main.py line 118):
at each position a ten-character match is taken whole and scanning resumes
after it, otherwise scanning advances one character. Digits are ASCII. -/
def findAllDates : List Char → List String
  | d1 :: d2 :: s1 :: d3 :: d4 :: s2 :: y1 :: y2 :: y3 :: y4 :: rest =>
    if d1.isDigit && d2.isDigit && s1 == '/' && d3.isDigit && d4.isDigit &&
        s2 == '/' && y1.isDigit && y2.isDigit && y3.isDigit && y4.isDigit then
      String.mk [d1, d2, s1, d3, d4, s2, y1, y2, y3, y4] ::
        findAllDates rest
    else
      findAllDates (d2 :: s1 :: d3 :: d4 :: s2 :: y1 :: y2 :: y3 :: y4 :: rest)
  | _ :: rest => findAllDates rest
  | [] => []

/-- The billing_period derivation (main.py lines 113 to 121): collapse
whitespace in the description, find all date tokens, and if more than one was
found join the first two with a spaced dash, else the empty string. -/
def billingPeriod (description : String) : String :=
  match findAllDates (collapseWs description).data with
  | a :: b :: _ => a ++ " - " ++ b
  | _ => ""

/-- Raw output row of billing_query (main.py lines 73 to 105), before the
pandas transformations; company columns are nullable because of the LEFT
JOIN, and the amount is the string FORMAT returns. -/
structure RawRow where
  company_name : Option String
  company_id : Option String
  invoice_generation : Int
  due_date : Int
  payment_date : Option Int
  description : String
  status_invoice : String
  status_process : Option String
  amount : String
  payment_type : String
  invoice_id : Nat
  updated_at : Option Int
deriving Repr, DecidableEq

/-- The SELECT list of billing_query (main.py lines 76 to 95) applied to one
joined pair of payment_invoice row and optional owning company. -/
def selectRow (inv : PaymentInvoice) (comp : Option Company) : RawRow :=
  { company_name := comp.map (fun c => c.nome)
    company_id := comp.map (fun c => toString c.id)
    invoice_generation := inv.created_at
    due_date := inv.due_date
    payment_date := paymentDateCase inv
    description := inv.description
    status_invoice := inv.status
    status_process := inv.process
    amount := formatAmount inv.amount
    payment_type := paymentTypeCase inv.type
    invoice_id := inv.id
    updated_at := inv.updated_at }

/-- Sample record builder for concrete scenarios: given key and amount, all
other fields are fixed defaults. -/
def sampleRec (id : String) (amt : Rat) : InvoiceRecord :=
  { invoice_id := id
    company_id := ""
    company_name := ""
    billing_period := ""
    invoice_generation := 0
    due_date := 0
    payment_date := none
    status_invoice := ""
    status_process := ""
    payment_type := ""
    amount := amt
    updated_at := 0
    inserted_at := 0 }

/-- Stored record with key A, amount 10, merge stamp 1. -/
def storedA : InvoiceRecord :=
  { sampleRec "A" 10 with inserted_at := 1 }

/-- Delta record with key A, amount 20, merge stamp 2. -/
def deltaA2 : InvoiceRecord :=
  { sampleRec "A" 20 with inserted_at := 2 }

/-- Sample source row used in witnesses. -/
def samplePI : PaymentInvoice :=
  { id := 1
    company_id := 1
    created_at := 0
    due_date := 0
    updated_at := some 5
    status := "open"
    process := none
    amount := 12345
    type := 3
    description := "x"
    deleted_at := none }

/-! Basic facts about the merge engine. -/

theorem overwriteFromDelta_invoice_id (t s : InvoiceRecord) :
    (overwriteFromDelta t s).invoice_id = t.invoice_id := rfl

theorem applyUpdate_invoice_id (delta : List InvoiceRecord) (t : InvoiceRecord) :
    (applyUpdate delta t).invoice_id = t.invoice_id := by
  unfold applyUpdate
  cases h : delta.find? (fun s => s.invoice_id == t.invoice_id) with
  | none => rfl
  | some s => rfl

theorem hasKey_updatePhase (store delta : List InvoiceRecord) (k : String) :
    hasKey (updatePhase store delta) k = hasKey store k := by
  induction store with
  | nil => rfl
  | cons a l ih =>
    simp only [updatePhase, List.map_cons, hasKey, List.any_cons] at *
    rw [applyUpdate_invoice_id, ih]

theorem insertPhase_updatePhase (store delta : List InvoiceRecord) :
    insertPhase (updatePhase store delta) delta = insertPhase store delta := by
  unfold insertPhase
  apply List.filter_congr
  intro s _
  rw [hasKey_updatePhase]

theorem storeKeys_updatePhase (store delta : List InvoiceRecord) :
    storeKeys (updatePhase store delta) = storeKeys store := by
  induction store with
  | nil => rfl
  | cons a l ih =>
    simp only [updatePhase, List.map_cons, storeKeys] at *
    rw [applyUpdate_invoice_id, ih]

theorem hasKey_iff_mem_storeKeys (store : List InvoiceRecord) (k : String) :
    hasKey store k = true ↔ k ∈ storeKeys store := by
  simp only [hasKey, storeKeys, List.any_eq_true, List.mem_map, beq_iff_eq]

theorem find?_eq_some_of_nodupKeys (delta : List InvoiceRecord)
    (s : InvoiceRecord) (k : String) (hd : nodupKeys delta) (hs : s ∈ delta)
    (hk : s.invoice_id = k) :
    delta.find? (fun x => x.invoice_id == k) = some s := by
  induction delta with
  | nil => cases hs
  | cons a l ih =>
    have hd' : a.invoice_id ∉ storeKeys l ∧ nodupKeys l := by
      simpa [nodupKeys, storeKeys] using hd
    rcases List.mem_cons.mp hs with rfl | hmem
    · rw [List.find?_cons_of_pos]
      simp [hk]
    · have hne : a.invoice_id ≠ k := by
        intro he
        exact hd'.1 (by
          rw [he, ← hk]
          exact List.mem_map_of_mem (fun r => r.invoice_id) hmem)
      rw [List.find?_cons_of_neg]
      · exact ih hd'.2 hmem
      · simp [hne]

/-- Claim C1: for every store and every delta batch with no duplicate keys,
the merge is the update phase followed by the insert phase, both taken against
the pre-merge snapshot: matched store records get the SET fields of the
matching delta record, delta records whose key has no match in the pre-update
store are appended, and the concrete scenario with store A at amount 10 and
deltas A at 20 and B at 5 yields exactly the rows A at 20 and B at 5. -/
theorem upsert_update_then_insert (store delta : List InvoiceRecord)
    (hd : nodupKeys delta) :
    upsert store delta = updatePhase store delta ++ insertPhase store delta ∧
    (∀ t ∈ store, ∀ s ∈ delta, s.invoice_id = t.invoice_id →
      applyUpdate delta t = overwriteFromDelta t s) ∧
    (upsert [sampleRec "A" 10] [sampleRec "A" 20, sampleRec "B" 5]).map
        (fun r => (r.invoice_id, r.amount)) = [("A", 20), ("B", 5)] := by
  refine ⟨?_, ?_, by decide⟩
  · show updatePhase store delta ++
        insertPhase (updatePhase store delta) delta =
      updatePhase store delta ++ insertPhase store delta
    rw [insertPhase_updatePhase]
  · intro t _ s hs hk
    unfold applyUpdate
    rw [find?_eq_some_of_nodupKeys delta s t.invoice_id hd hs hk]

/-- Witness for C1 at the concrete scenario of the spec. -/
theorem upsert_update_then_insert_witness :
    (upsert [sampleRec "A" 10] [sampleRec "A" 20, sampleRec "B" 5]).map
        (fun r => (r.invoice_id, r.amount)) = [("A", 20), ("B", 5)] :=
  (upsert_update_then_insert [sampleRec "A" 10]
    [sampleRec "A" 20, sampleRec "B" 5] (by decide)).2.2

/-- Claim C2: merging a key-unique delta batch into a key-unique store yields a
store that is still key-unique. -/
theorem upsert_preserves_key_uniqueness (store delta : List InvoiceRecord)
    (hs : nodupKeys store) (hd : nodupKeys delta) :
    nodupKeys (upsert store delta) := by
  unfold upsert nodupKeys
  rw [show storeKeys (updatePhase store delta ++
        insertPhase (updatePhase store delta) delta) =
      storeKeys (updatePhase store delta) ++
        storeKeys (insertPhase (updatePhase store delta) delta) from
    List.map_append _ _ _]
  apply List.Nodup.append
  · rw [storeKeys_updatePhase]
    exact hs
  · simp only [insertPhase, storeKeys, nodupKeys] at hd ⊢
    exact ((List.filter_sublist delta).map
      (fun r : InvoiceRecord => r.invoice_id)).nodup hd
  · intro k hk1 hk2
    rw [storeKeys_updatePhase] at hk1
    rcases List.mem_map.mp hk2 with ⟨s, hsmem, rfl⟩
    rcases List.mem_filter.mp hsmem with ⟨-, hcond⟩
    rw [Bool.not_eq_eq_eq_not, Bool.not_true, hasKey_updatePhase] at hcond
    exact absurd ((hasKey_iff_mem_storeKeys store s.invoice_id).mpr hk1)
      (by simp [hcond])

/-- Witness for C2 at the concrete scenario of the spec. -/
theorem upsert_preserves_key_uniqueness_witness :
    nodupKeys (upsert [sampleRec "A" 10] [sampleRec "A" 20, sampleRec "B" 5]) :=
  upsert_preserves_key_uniqueness [sampleRec "A" 10]
    [sampleRec "A" 20, sampleRec "B" 5] (by decide) (by decide)

/-- Claim C3 counterexample: the claim states the update phase leaves
inserted_at unchanged, but the UPDATE SET list of main.py line 189 copies
inserted_at from the delta record. Merging a delta for key A with stamp 2 into
a store holding key A with stamp 1 produces stamp 2, not the stored stamp 1. -/
theorem update_changes_inserted_at_cex :
    (upsert [storedA] [deltaA2]).map (fun r => r.inserted_at) = [2] ∧
    storedA.inserted_at = 1 ∧ (2 : Int) ≠ 1 := by
  refine ⟨by decide, by decide, by decide⟩

/-- Claim C3 amended: the update phase leaves invoice_id unchanged, and also
company_id, company_name and billing_period, which are absent from the SET
list; every other field, inserted_at included, is overwritten with the
matching delta record value. -/
theorem update_frame_and_overwritten_fields (delta : List InvoiceRecord)
    (t s : InvoiceRecord) (hd : nodupKeys delta) (hs : s ∈ delta)
    (hk : s.invoice_id = t.invoice_id) :
    (applyUpdate delta t).invoice_id = t.invoice_id ∧
    (applyUpdate delta t).company_id = t.company_id ∧
    (applyUpdate delta t).company_name = t.company_name ∧
    (applyUpdate delta t).billing_period = t.billing_period ∧
    (applyUpdate delta t).invoice_generation = s.invoice_generation ∧
    (applyUpdate delta t).due_date = s.due_date ∧
    (applyUpdate delta t).payment_date = s.payment_date ∧
    (applyUpdate delta t).status_invoice = s.status_invoice ∧
    (applyUpdate delta t).status_process = s.status_process ∧
    (applyUpdate delta t).payment_type = s.payment_type ∧
    (applyUpdate delta t).amount = s.amount ∧
    (applyUpdate delta t).updated_at = s.updated_at ∧
    (applyUpdate delta t).inserted_at = s.inserted_at := by
  have h : applyUpdate delta t = overwriteFromDelta t s := by
    unfold applyUpdate
    rw [find?_eq_some_of_nodupKeys delta s t.invoice_id hd hs hk]
  rw [h]
  exact ⟨rfl, rfl, rfl, rfl, rfl, rfl, rfl, rfl, rfl, rfl, rfl, rfl, rfl⟩

/-- Witness for the amended C3 on the concrete records. -/
theorem update_frame_and_overwritten_fields_witness :
    (applyUpdate [deltaA2] storedA).inserted_at = deltaA2.inserted_at ∧
    (applyUpdate [deltaA2] storedA).invoice_id = storedA.invoice_id :=
  ⟨(update_frame_and_overwritten_fields [deltaA2] storedA deltaA2
      (by decide) (by decide) (by decide)).2.2.2.2.2.2.2.2.2.2.2.2,
    (update_frame_and_overwritten_fields [deltaA2] storedA deltaA2
      (by decide) (by decide) (by decide)).1⟩

/-- Claim C4: a store record whose key does not occur in the delta batch is
left unchanged by the update and is still present, identical in every field,
after the merge. -/
theorem upsert_preserves_untouched (store delta : List InvoiceRecord)
    (t : InvoiceRecord) (ht : t ∈ store)
    (hmiss : ∀ s ∈ delta, s.invoice_id ≠ t.invoice_id) :
    applyUpdate delta t = t ∧ t ∈ upsert store delta := by
  have hfind : delta.find? (fun s => s.invoice_id == t.invoice_id) = none := by
    rw [List.find?_eq_none]
    intro s hsmem
    simpa using hmiss s hsmem
  have happ : applyUpdate delta t = t := by
    unfold applyUpdate
    rw [hfind]
  refine ⟨happ, ?_⟩
  unfold upsert
  exact List.mem_append_left _ (List.mem_map.mpr ⟨t, ht, happ⟩)

/-- Witness for C4: the record with key A survives a merge whose delta only
touches key B. -/
theorem upsert_preserves_untouched_witness :
    applyUpdate [sampleRec "B" 5] storedA = storedA ∧
    storedA ∈ upsert [storedA] [sampleRec "B" 5] :=
  upsert_preserves_untouched [storedA] [sampleRec "B" 5] storedA
    (by decide) (by decide)

/-! Watermark resolver and extraction query. -/

theorem sqlMax_spec (l : List Int) (h : l ≠ []) :
    ∃ m, sqlMax l = some m ∧ m ∈ l ∧ ∀ x ∈ l, x ≤ m := by
  induction l with
  | nil => exact absurd rfl h
  | cons a l ih =>
    rcases eq_or_ne l [] with rfl | hne
    · exact ⟨a, rfl, by simp, by simp⟩
    · obtain ⟨m, hm, hmem, hle⟩ := ih hne
      refine ⟨max a m, ?_, ?_, ?_⟩
      · show sqlMax (a :: l) = some (max a m)
        unfold sqlMax
        rw [hm]
      · rcases max_choice a m with hc | hc
        · rw [hc]
          exact List.mem_cons_self a l
        · rw [hc]
          exact List.mem_cons_of_mem a hmem
      · intro x hx
        rcases List.mem_cons.mp hx with rfl | hx
        · exact le_max_left _ _
        · exact le_trans (hle x hx) (le_max_right _ _)

theorem resolveWatermark_of_ne (files : List (List InvoiceRecord))
    (hne : files ≠ []) :
    resolveWatermark files =
      { initializedEmptyStore := false
        filter := some (sqlMax ((files.flatten).map (fun r => r.updated_at))) } := by
  unfold resolveWatermark
  rw [if_neg (by simpa using hne)]

theorem mem_extractRows (filt : Option (Option Int))
    (rows : List PaymentInvoice) (r : PaymentInvoice) :
    r ∈ extractRows filt rows ↔
      r ∈ rows ∧ r.deleted_at = none ∧ passesWatermark filt r = true := by
  unfold extractRows
  rw [List.mem_dedup, List.mem_filter]
  simp [and_assoc]

theorem passesWatermark_some_iff (w : Int) (r : PaymentInvoice) :
    passesWatermark (some (some w)) r = true ↔
      ∃ u, r.updated_at = some u ∧ w < u := by
  cases hu : r.updated_at with
  | none => simp [passesWatermark, hu]
  | some u => simp [passesWatermark, hu]

/-- Claim C5 counterexample: a store location holding one parquet artifact
with zero records is not treated as first-run. The glob result is nonempty, so
the code takes the non-bootstrap branch: no empty fixed-schema table is
created, and a watermark filter is produced from MAX over zero records, which
is NULL; the filter clause compares updated_at to the rendered null value
rather than leaving the extraction unfiltered. -/
theorem bootstrap_empty_artifact_cex :
    resolveWatermark [([] : List InvoiceRecord)] =
      { initializedEmptyStore := false, filter := some none } ∧
    resolveWatermark ([] : List (List InvoiceRecord)) =
      { initializedEmptyStore := true, filter := none } :=
  ⟨rfl, rfl⟩

/-- Claim C5 amended: only the absence of glob artifacts is treated as
first-run, whether the prefix is missing or merely empty of parquet files; in
that case extraction is unfiltered and the empty fixed-schema store is
initialized. A store whose artifacts exist is never treated as first-run: the
filter is built from MAX(updated_at) over its records even when there are
zero records and that MAX is NULL. -/
theorem bootstrap_glob_based (files : List (List InvoiceRecord)) :
    (files = [] →
      resolveWatermark files =
        { initializedEmptyStore := true, filter := none }) ∧
    (files ≠ [] →
      (resolveWatermark files).initializedEmptyStore = false ∧
      (resolveWatermark files).filter =
        some (sqlMax ((files.flatten).map (fun r => r.updated_at)))) := by
  constructor
  · rintro rfl
    rfl
  · intro hne
    rw [resolveWatermark_of_ne files hne]
    exact ⟨rfl, rfl⟩

/-- Witness for the amended C5 on an absent store and on a store with one
empty artifact. -/
theorem bootstrap_glob_based_witness :
    resolveWatermark ([] : List (List InvoiceRecord)) =
      { initializedEmptyStore := true, filter := none } ∧
    (resolveWatermark [([] : List InvoiceRecord)]).initializedEmptyStore =
      false :=
  ⟨(bootstrap_glob_based []).1 rfl,
    ((bootstrap_glob_based [[]]).2 (by decide)).1⟩

/-- Claim C6: when prior artifacts exist and hold at least one record, the
watermark is the maximum updated_at over every record of the whole store, the
filtered query returns exactly the non-soft-deleted rows whose modification
time is strictly greater than the watermark, and with no watermark the query
only excludes soft-deleted rows. -/
theorem watermark_max_and_strict_filter (files : List (List InvoiceRecord))
    (hne : files.flatten ≠ []) (rows : List PaymentInvoice) :
    ∃ w, (resolveWatermark files).filter = some (some w) ∧
      w ∈ (files.flatten).map (fun r => r.updated_at) ∧
      (∀ rec ∈ files.flatten, rec.updated_at ≤ w) ∧
      (∀ r, r ∈ extractRows (some (some w)) rows ↔
        r ∈ rows ∧ r.deleted_at = none ∧
          ∃ u, r.updated_at = some u ∧ w < u) ∧
      (∀ r, r ∈ extractRows none rows ↔ r ∈ rows ∧ r.deleted_at = none) := by
  have hfiles : files ≠ [] := by
    rintro rfl
    exact hne rfl
  have hlne : (files.flatten).map (fun r => r.updated_at) ≠ [] := by
    intro hmapnil
    exact hne (List.map_eq_nil_iff.mp hmapnil)
  obtain ⟨m, hm, hmem, hle⟩ :=
    sqlMax_spec ((files.flatten).map (fun r => r.updated_at)) hlne
  refine ⟨m, ?_, hmem, ?_, ?_, ?_⟩
  · rw [resolveWatermark_of_ne files hfiles, hm]
  · intro rec hrec
    exact hle _ (List.mem_map_of_mem (fun r => r.updated_at) hrec)
  · intro r
    rw [mem_extractRows, passesWatermark_some_iff]
  · intro r
    rw [mem_extractRows]
    simp [passesWatermark]

/-- Witness for C6 on a one-record store and a one-row source. -/
theorem watermark_max_and_strict_filter_witness :
    ∃ w, (resolveWatermark [[sampleRec "A" 10]]).filter = some (some w) ∧
      w ∈ (([[sampleRec "A" 10]] : List (List InvoiceRecord)).flatten).map
          (fun r => r.updated_at) ∧
      (∀ rec ∈ ([[sampleRec "A" 10]] : List (List InvoiceRecord)).flatten,
        rec.updated_at ≤ w) ∧
      (∀ r, r ∈ extractRows (some (some w)) [samplePI] ↔
        r ∈ [samplePI] ∧ r.deleted_at = none ∧
          ∃ u, r.updated_at = some u ∧ w < u) ∧
      (∀ r, r ∈ extractRows none [samplePI] ↔
        r ∈ [samplePI] ∧ r.deleted_at = none) :=
  watermark_max_and_strict_filter [[sampleRec "A" 10]] (by decide) [samplePI]

/-! Row transformer: payment date gating and payment type lookup. -/

/-- Claim C7: for every extracted row the payment_date column is non-null only
when status_invoice is paid, and for any other status it is null even when the
source updated_at timestamp is non-null. -/
theorem payment_date_gated_on_paid (inv : PaymentInvoice)
    (comp : Option Company) :
    ((selectRow inv comp).payment_date ≠ none →
      (selectRow inv comp).status_invoice = "paid") ∧
    (inv.status ≠ "paid" → (selectRow inv comp).payment_date = none) := by
  have hpd : (selectRow inv comp).payment_date = paymentDateCase inv := rfl
  have hst : (selectRow inv comp).status_invoice = inv.status := rfl
  constructor
  · intro hnn
    rw [hst]
    by_contra hne
    rw [hpd] at hnn
    unfold paymentDateCase at hnn
    rw [if_neg hne] at hnn
    exact hnn rfl
  · intro hne
    rw [hpd]
    unfold paymentDateCase
    rw [if_neg hne]

/-- Witness for C7: an unpaid row with a non-null source timestamp still has a
null payment_date. -/
theorem payment_date_gated_on_paid_witness :
    samplePI.updated_at = some 5 ∧
    (selectRow samplePI none).payment_date = none :=
  ⟨rfl, (payment_date_gated_on_paid samplePI none).2 (by decide)⟩

/-- Claim C8 counterexample: the claim maps code 2 to the string Credit Card,
but the CASE expression of main.py line 91 yields the Portuguese label, which
differs from Credit Card. -/
theorem payment_type_code_two_cex :
    paymentTypeCase 2 = "Cartão de Crédito" ∧
    paymentTypeCase 2 ≠ "Credit Card" :=
  ⟨rfl, by decide⟩

/-- Claim C8 amended: the payment_type mapping is a total closed lookup: code
1 yields Boleto, code 2 yields the Portuguese credit-card label, and every
other code yields the empty string; being a total function it never raises. -/
theorem payment_type_closed_lookup (t : Int) :
    paymentTypeCase 1 = "Boleto" ∧
    paymentTypeCase 2 = "Cartão de Crédito" ∧
    (t ≠ 1 → t ≠ 2 → paymentTypeCase t = "") := by
  refine ⟨rfl, rfl, ?_⟩
  intro h1 h2
  unfold paymentTypeCase
  rw [if_neg h1, if_neg h2]

/-- Witness for the amended C8 at the unmapped code 3. -/
theorem payment_type_closed_lookup_witness :
    paymentTypeCase 3 = "" :=
  (payment_type_closed_lookup 3).2.2 (by decide) (by decide)

/-- Claim C9: billing_period is derived by collapsing whitespace runs to
single spaces and scanning for date tokens of two digits, slash, two digits,
slash, four digits: with at least two tokens the first two are joined with a
spaced dash, with zero or one token the result is the empty string and no
error is raised, and the concrete description of the spec yields the expected
period string. -/
theorem billing_period_first_two_dates (d : String) :
    (∀ a b rest, findAllDates (collapseWs d).data = a :: b :: rest →
      billingPeriod d = a ++ " - " ++ b) ∧
    ((findAllDates (collapseWs d).data).length ≤ 1 → billingPeriod d = "") ∧
    billingPeriod "Invoice for period 01/01/2024 31/01/2024 extra text" =
      "01/01/2024 - 31/01/2024" := by
  refine ⟨?_, ?_, by decide⟩
  · intro a b rest h
    unfold billingPeriod
    rw [h]
  · intro hlen
    unfold billingPeriod
    cases hf : findAllDates (collapseWs d).data with
    | nil => rfl
    | cons a tail =>
      cases tail with
      | nil => rfl
      | cons b rest =>
        rw [hf] at hlen
        simp at hlen

/-- Witness for C9 on the concrete description of the spec and on a
description with no date token. -/
theorem billing_period_first_two_dates_witness :
    billingPeriod "Invoice for period 01/01/2024 31/01/2024 extra text" =
      "01/01/2024 - 31/01/2024" ∧
    billingPeriod "no dates here" = "" :=
  ⟨(billing_period_first_two_dates "x").2.2,
    (billing_period_first_two_dates "no dates here").2.1 (by decide)⟩

/-! Amount pipeline: format, strip separators, parse, round. -/

theorem digitChar_spec (d : Nat) (hd : d < 10) :
    (digitChar d).toNat = 48 + d ∧ (digitChar d).isDigit = true ∧
    digitChar d ≠ ',' ∧ digitChar d ≠ '.' := by
  interval_cases d <;> exact ⟨rfl, rfl, by decide, by decide⟩

theorem mem_digits_lt_ten (m : Nat) : ∀ d ∈ Nat.digits 10 m, d < 10 :=
  fun _ hd => Nat.digits_lt_base (by norm_num) hd

theorem filter_groupRevDigits (l : List Char) (k : Nat)
    (hl : ∀ c ∈ l, c ≠ ',') :
    (groupRevDigits l k).filter (fun c => c != ',') = l := by
  induction l generalizing k with
  | nil => rfl
  | cons c rest ih =>
    have hc : (c != ',') = true := by
      simpa using hl c (List.mem_cons_self c rest)
    have hrest : ∀ x ∈ rest, x ≠ ',' :=
      fun x hx => hl x (List.mem_cons_of_mem c hx)
    by_cases hk : k = 3
    · simp [groupRevDigits, hk, List.filter_cons, hc, ih 1 hrest]
    · simp [groupRevDigits, hk, List.filter_cons, hc, ih (k + 1) hrest]

theorem plainInt_ne_nil (m : Nat) : plainInt m ≠ [] := by
  unfold plainInt
  split
  · simp
  · next hm =>
    simp only [ne_eq, List.reverse_eq_nil_iff, List.map_eq_nil_iff]
    exact Nat.digits_ne_nil_iff_ne_zero.mpr hm

theorem plainInt_chars (m : Nat) :
    ∀ c ∈ plainInt m, c.isDigit = true ∧ c ≠ ',' ∧ c ≠ '.' := by
  intro c hc
  unfold plainInt at hc
  split at hc
  · have : c = '0' := by simpa using hc
    subst this
    exact ⟨rfl, by decide, by decide⟩
  · rw [List.mem_reverse] at hc
    rcases List.mem_map.mp hc with ⟨d, hd, rfl⟩
    have h := digitChar_spec d (mem_digits_lt_ten m d hd)
    exact ⟨h.2.1, h.2.2.1, h.2.2.2⟩

theorem filter_natGrouped (m : Nat) :
    (natGrouped m).filter (fun c => c != ',') = plainInt m := by
  unfold natGrouped plainInt
  split
  · rfl
  · rw [List.filter_reverse]
    congr 1
    apply filter_groupRevDigits
    intro c hc
    rcases List.mem_map.mp hc with ⟨d, hd, rfl⟩
    exact (digitChar_spec d (mem_digits_lt_ten m d hd)).2.2.1

theorem digitsVal_append_digit (l : List Char) (c : Char) :
    digitsVal (l ++ [c]) = 10 * digitsVal l + (c.toNat - 48) := by
  unfold digitsVal
  rw [List.foldl_append]
  rfl

theorem digitsVal_reverse_map (L : List Nat) (hL : ∀ d ∈ L, d < 10) :
    digitsVal ((L.map digitChar).reverse) = Nat.ofDigits 10 L := by
  induction L with
  | nil => rfl
  | cons d L ih =>
    rw [List.map_cons, List.reverse_cons, digitsVal_append_digit,
      ih (fun x hx => hL x (List.mem_cons_of_mem d hx)),
      (digitChar_spec d (hL d (List.mem_cons_self d L))).1,
      Nat.ofDigits_cons]
    omega

theorem digitsVal_plainInt (m : Nat) : digitsVal (plainInt m) = m := by
  unfold plainInt
  split
  · next hm =>
    subst hm
    rfl
  · rw [digitsVal_reverse_map _ (mem_digits_lt_ten m), Nat.ofDigits_digits]

theorem takeWhile_until_dot (xs ys : List Char) (hxs : ∀ c ∈ xs, c ≠ '.') :
    (xs ++ '.' :: ys).takeWhile (fun c => c != '.') = xs := by
  induction xs with
  | nil => rfl
  | cons c rest ih =>
    have hc : (c != '.') = true := by
      simpa using hxs c (List.mem_cons_self c rest)
    simp [List.takeWhile_cons, hc,
      ih (fun x hx => hxs x (List.mem_cons_of_mem c hx))]

theorem dropWhile_until_dot (xs ys : List Char) (hxs : ∀ c ∈ xs, c ≠ '.') :
    (xs ++ '.' :: ys).dropWhile (fun c => c != '.') = '.' :: ys := by
  induction xs with
  | nil => rfl
  | cons c rest ih =>
    have hc : (c != '.') = true := by
      simpa using hxs c (List.mem_cons_self c rest)
    simp [List.dropWhile_cons, hc,
      ih (fun x hx => hxs x (List.mem_cons_of_mem c hx))]

theorem parseDecCore_int_frac (neg : Bool) (ip frac : List Char)
    (hip : ip ≠ []) (hdig : ∀ c ∈ ip, c.isDigit = true ∧ c ≠ '.')
    (hfd : frac.all Char.isDigit = true) :
    parseDecCore neg (ip ++ '.' :: frac) =
      some ((if neg then (-1 : Rat) else 1) *
        ((digitsVal ip : Rat) +
          (digitsVal frac : Rat) / (10 : Rat) ^ frac.length)) := by
  have hnodot : ∀ c ∈ ip, c ≠ '.' := fun c hc => (hdig c hc).2
  have htake : (ip ++ '.' :: frac).takeWhile (fun c => c != '.') = ip :=
    takeWhile_until_dot ip frac hnodot
  have hdrop : (ip ++ '.' :: frac).dropWhile (fun c => c != '.') = '.' :: frac :=
    dropWhile_until_dot ip frac hnodot
  have hall : ip.all Char.isDigit = true := by
    rw [List.all_eq_true]
    intro c hc
    exact (hdig c hc).1
  unfold parseDecCore
  rw [htake, hdrop, if_neg hip, hall]
  exact if_pos hfd

theorem twoDigits_all_digits (r : Nat) (hr : r < 100) :
    (twoDigits r).all Char.isDigit = true := by
  rw [List.all_eq_true]
  intro c hc
  unfold twoDigits at hc
  rcases List.mem_cons.mp hc with rfl | hc
  · exact (digitChar_spec _ (by omega)).2.1
  · rcases List.mem_cons.mp hc with rfl | hc
    · exact (digitChar_spec _ (by omega)).2.1
    · cases hc

theorem digitsVal_twoDigits (r : Nat) (hr : r < 100) :
    digitsVal (twoDigits r) = r := by
  unfold digitsVal twoDigits
  simp only [List.foldl_cons, List.foldl_nil]
  rw [(digitChar_spec (r / 10) (by omega)).1,
    (digitChar_spec (r % 10) (by omega)).1]
  omega

theorem stripCommas_formatAmount (n : Int) :
    (stripCommas (formatAmount n)).data =
      (if n < 0 then ['-'] else []) ++ plainInt (n.natAbs / 100) ++
        '.' :: twoDigits (n.natAbs % 100) := by
  have hr : n.natAbs % 100 < 100 := Nat.mod_lt _ (by norm_num)
  have h2 : ∀ c ∈ ('.' :: twoDigits (n.natAbs % 100)), (c != ',') = true := by
    intro c hc
    rcases List.mem_cons.mp hc with rfl | hc
    · decide
    · unfold twoDigits at hc
      rcases List.mem_cons.mp hc with rfl | hc
      · simpa using (digitChar_spec _ (by omega)).2.2.1
      · rcases List.mem_cons.mp hc with rfl | hc
        · simpa using (digitChar_spec _ (by omega)).2.2.1
        · cases hc
  have hsign : ((if n < 0 then ['-'] else []) : List Char).filter
      (fun c => c != ',') = (if n < 0 then ['-'] else []) := by
    split
    · rfl
    · rfl
  show ((if n < 0 then ['-'] else []) ++ natGrouped (n.natAbs / 100) ++
      '.' :: twoDigits (n.natAbs % 100)).filter (fun c => c != ',') =
    (if n < 0 then ['-'] else []) ++ plainInt (n.natAbs / 100) ++
      '.' :: twoDigits (n.natAbs % 100)
  rw [List.filter_append, List.filter_append, hsign, filter_natGrouped,
    List.filter_eq_self.mpr h2]

theorem parseDecimal_strip_format (n : Int) :
    parseDecimal (stripCommas (formatAmount n)) = some ((n : Rat) / 100) := by
  have hq100 : 100 * (n.natAbs / 100) + n.natAbs % 100 = n.natAbs :=
    Nat.div_add_mod _ _
  have hr : n.natAbs % 100 < 100 := Nat.mod_lt _ (by norm_num)
  have hipd : ∀ c ∈ plainInt (n.natAbs / 100), c.isDigit = true ∧ c ≠ '.' := by
    intro c hc
    have h := plainInt_chars _ c hc
    exact ⟨h.1, h.2.2⟩
  have hfd : (twoDigits (n.natAbs % 100)).all Char.isDigit = true :=
    twoDigits_all_digits _ hr
  have hlen : (twoDigits (n.natAbs % 100)).length = 2 := rfl
  have hvalq : (digitsVal (plainInt (n.natAbs / 100)) : Rat) +
      (digitsVal (twoDigits (n.natAbs % 100)) : Rat) /
        (10 : Rat) ^ (twoDigits (n.natAbs % 100)).length =
      (n.natAbs : Rat) / 100 := by
    rw [digitsVal_plainInt, digitsVal_twoDigits _ hr, hlen]
    have hcast : (100 : Rat) * ((n.natAbs / 100 : Nat) : Rat) +
        ((n.natAbs % 100 : Nat) : Rat) = (n.natAbs : Rat) := by
      exact_mod_cast congrArg (fun k : Nat => (k : Rat)) hq100
    rw [show ((10 : Rat) ^ 2) = 100 by norm_num]
    field_simp
    linarith [hcast]
  have hdata := stripCommas_formatAmount n
  by_cases hn : n < 0
  · rw [if_pos hn] at hdata
    have hhead : (stripCommas (formatAmount n)).data.head? = some '-' := by
      rw [hdata]
      rfl
    have htail : (stripCommas (formatAmount n)).data.tail =
        plainInt (n.natAbs / 100) ++ '.' :: twoDigits (n.natAbs % 100) := by
      rw [hdata]
      rfl
    unfold parseDecimal
    rw [hhead, if_pos rfl, htail,
      parseDecCore_int_frac true _ _ (plainInt_ne_nil _) hipd hfd, hvalq]
    have habs : ((n.natAbs : Nat) : Rat) = -(n : Rat) := by
      rw [Int.cast_natAbs, abs_of_neg hn]
      exact Int.cast_neg n
    rw [habs]
    show some ((-1 : Rat) * (-(n : Rat) / 100)) = some ((n : Rat) / 100)
    congr 1
    ring
  · rw [if_neg hn, List.nil_append] at hdata
    obtain ⟨c, cs, hcc⟩ :=
      List.exists_cons_of_ne_nil (plainInt_ne_nil (n.natAbs / 100))
    have hcd : c.isDigit = true :=
      (plainInt_chars _ c (hcc ▸ List.mem_cons_self c cs)).1
    have hcne : ¬((some c : Option Char) = some '-') := by
      intro h
      rw [Option.some_inj] at h
      rw [h] at hcd
      exact absurd hcd (by decide)
    have hhead : (stripCommas (formatAmount n)).data.head? = some c := by
      rw [hdata, hcc]
      rfl
    unfold parseDecimal
    rw [hhead, if_neg hcne, hdata,
      parseDecCore_int_frac false _ _ (plainInt_ne_nil _) hipd hfd, hvalq]
    have habs : ((n.natAbs : Nat) : Rat) = (n : Rat) := by
      rw [Int.cast_natAbs, abs_of_nonneg (not_lt.mp hn)]
    rw [habs]
    show some ((1 : Rat) * ((n : Rat) / 100)) = some ((n : Rat) / 100)
    congr 1
    ring

/-! Facts about the binary rounding model. -/

theorem round2_cents (n : Int) : round2 ((n : Rat) / 100) = (n : Rat) / 100 := by
  unfold round2
  rw [div_mul_cancel₀ _ (by norm_num : (100 : Rat) ≠ 0), round_intCast]

theorem round2_recover (a : Rat) (n : Int)
    (h : |a - (n : Rat) / 100| < 1 / 200) : round2 a = (n : Rat) / 100 := by
  unfold round2
  have hr : round (a * 100) = n := by
    rw [round_eq]
    apply Int.floor_eq_iff.mpr
    rw [abs_lt] at h
    constructor
    · linarith [h.1]
    · linarith [h.2]
  rw [hr]

theorem bitLenAux_zero (fuel : Nat) : bitLenAux fuel 0 = 0 := by
  cases fuel with
  | zero => rfl
  | succ f => simp [bitLenAux]

theorem bitLenAux_spec (fuel : Nat) : ∀ n, n ≤ fuel → 1 ≤ n →
    ∃ k, bitLenAux fuel n = k + 1 ∧ 2 ^ k ≤ n ∧ n < 2 ^ (k + 1) := by
  induction fuel with
  | zero =>
    intro n h1 h2
    omega
  | succ fuel ih =>
    intro n hle h1
    rw [show bitLenAux (fuel + 1) n =
      if n = 0 then 0 else bitLenAux fuel (n / 2) + 1 from rfl]
    rw [if_neg (by omega)]
    by_cases h2 : n / 2 = 0
    · have hn1 : n = 1 := by omega
      subst hn1
      refine ⟨0, ?_, by norm_num, by norm_num⟩
      rw [show (1 : Nat) / 2 = 0 from rfl, bitLenAux_zero]
    · obtain ⟨k, hk, hlo, hhi⟩ := ih (n / 2) (by omega) (by omega)
      refine ⟨k + 1, by rw [hk], ?_, ?_⟩
      · have h := pow_succ 2 k
        omega
      · have ha := pow_succ 2 (k + 1)
        have hb := pow_succ 2 k
        omega

theorem bitLen_spec (m : Nat) (h : 1 ≤ m) :
    ∃ k, bitLen m = k + 1 ∧ 2 ^ k ≤ m ∧ m < 2 ^ (k + 1) :=
  bitLenAux_spec m m le_rfl h

theorem elog2_spec (x : Rat) (hx : (2 : Rat) ^ (-(200 : Int)) ≤ |x|) :
    (2 : Rat) ^ (elog2 x) ≤ |x| ∧ |x| < (2 : Rat) ^ (elog2 x + 1) := by
  have h2p : (0 : Rat) < (2 : Rat) ^ (200 : Nat) := by positivity
  have hM1 : (1 : Int) ≤ ⌊|x| * (2 : Rat) ^ (200 : Nat)⌋ := by
    apply Int.le_floor.mpr
    push_cast
    calc (1 : Rat) = (2 : Rat) ^ (-(200 : Int)) * (2 : Rat) ^ ((200 : Int)) := by
          rw [← zpow_add₀ (by norm_num : (2 : Rat) ≠ 0)]
          norm_num
      _ ≤ |x| * (2 : Rat) ^ (200 : Nat) := by
          rw [show ((2 : Rat) ^ ((200 : Int))) = (2 : Rat) ^ (200 : Nat) from
            zpow_natCast 2 200]
          exact mul_le_mul_of_nonneg_right hx (le_of_lt h2p)
  obtain ⟨k, hbl, hlo, hhi⟩ :=
    bitLen_spec ⌊|x| * (2 : Rat) ^ (200 : Nat)⌋.toNat (by omega)
  have helog : elog2 x = (k : Int) - 200 := by
    unfold elog2
    rw [hbl]
    push_cast
    ring
  have hMt : ((⌊|x| * (2 : Rat) ^ (200 : Nat)⌋.toNat : Int)) =
      ⌊|x| * (2 : Rat) ^ (200 : Nat)⌋ := Int.toNat_of_nonneg (by omega)
  have hlo2 : ((2 : Rat) ^ (k : Nat)) ≤
      (⌊|x| * (2 : Rat) ^ (200 : Nat)⌋ : Rat) := by
    rw [← hMt]
    exact_mod_cast hlo
  have hhi2 : ((⌊|x| * (2 : Rat) ^ (200 : Nat)⌋ : Rat)) + 1 ≤
      (2 : Rat) ^ (k + 1 : Nat) := by
    rw [← hMt]
    exact_mod_cast hhi
  have hfl : (⌊|x| * (2 : Rat) ^ (200 : Nat)⌋ : Rat) ≤
      |x| * (2 : Rat) ^ (200 : Nat) := Int.floor_le _
  have hfu : |x| * (2 : Rat) ^ (200 : Nat) <
      (⌊|x| * (2 : Rat) ^ (200 : Nat)⌋ : Rat) + 1 := Int.lt_floor_add_one _
  constructor
  · rw [helog]
    rw [show ((2 : Rat) ^ ((k : Int) - 200)) =
      (2 : Rat) ^ (k : Nat) / (2 : Rat) ^ (200 : Nat) from by
        rw [zpow_sub₀ (by norm_num : (2 : Rat) ≠ 0)]
        norm_cast]
    rw [div_le_iff₀ h2p]
    calc (2 : Rat) ^ (k : Nat) ≤ _ := hlo2
      _ ≤ |x| * (2 : Rat) ^ (200 : Nat) := hfl
  · rw [helog]
    rw [show ((k : Int) - 200 + 1) = ((k + 1 : Nat) : Int) - 200 by push_cast; ring]
    rw [show ((2 : Rat) ^ (((k + 1 : Nat) : Int) - 200)) =
      (2 : Rat) ^ (k + 1 : Nat) / (2 : Rat) ^ (200 : Nat) from by
        rw [zpow_sub₀ (by norm_num : (2 : Rat) ≠ 0)]
        norm_cast]
    rw [lt_div_iff₀ h2p]
    calc |x| * (2 : Rat) ^ (200 : Nat) < _ := hfu
      _ ≤ (2 : Rat) ^ (k + 1 : Nat) := hhi2

theorem elog2_eq_of (x : Rat) (k : Int)
    (hlow : (2 : Rat) ^ (-(200 : Int)) ≤ |x|)
    (h1 : (2 : Rat) ^ k ≤ |x|) (h2 : |x| < (2 : Rat) ^ (k + 1)) :
    elog2 x = k := by
  obtain ⟨ha, hb⟩ := elog2_spec x hlow
  by_contra hne
  rcases lt_or_gt_of_ne hne with hlt | hgt
  · have h3 : (2 : Rat) ^ (elog2 x + 1) ≤ (2 : Rat) ^ k :=
      zpow_le_zpow_right₀ (by norm_num) (by omega)
    linarith
  · have h3 : (2 : Rat) ^ (k + 1) ≤ (2 : Rat) ^ (elog2 x) :=
      zpow_le_zpow_right₀ (by norm_num) (by omega)
    linarith

theorem rne_err (q : Rat) : |(rne q : Rat) - q| ≤ 1 / 2 := by
  have h0 : ((⌊q⌋ : Rat)) ≤ q := Int.floor_le q
  have h1 : q < (⌊q⌋ : Rat) + 1 := Int.lt_floor_add_one q
  unfold rne
  split
  · next h =>
    rw [abs_le]
    constructor <;> linarith
  · next h =>
    push_neg at h
    split
    · next h2 =>
      rw [abs_le]
      push_cast
      constructor <;> linarith
    · next h2 =>
      push_neg at h2
      split
      · rw [abs_le]
        constructor <;> linarith
      · rw [abs_le]
        push_cast
        constructor <;> linarith

theorem int_eq_of_rat_close (a b : Int) (h : |(a : Rat) - (b : Rat)| < 1) :
    a = b := by
  rw [abs_lt] at h
  have h1 : (-1 : Int) < a - b := by
    have hc : ((-1 : Int) : Rat) < ((a - b : Int) : Rat) := by
      push_cast
      linarith [h.1]
    exact_mod_cast hc
  have h2 : a - b < 1 := by
    have hc : ((a - b : Int) : Rat) < ((1 : Int) : Rat) := by
      push_cast
      linarith [h.2]
    exact_mod_cast hc
  omega

theorem roundPrec_zero (p : Nat) : roundPrec p 0 = 0 := by
  unfold roundPrec
  simp

theorem roundPrec_val (p : Nat) (x : Rat) (hx0 : x ≠ 0) :
    roundPrec p x = (if x < 0 then (-1 : Rat) else 1) *
      ((rne (|x| * (2 : Rat) ^ (-(elog2 x - ((p - 1 : Nat) : Int))))) : Rat) *
      (2 : Rat) ^ (elog2 x - ((p - 1 : Nat) : Int)) := by
  unfold roundPrec
  rw [if_neg hx0]

theorem roundPrec_dyadic (p : Nat) (x : Rat) (hx0 : x ≠ 0) :
    ∃ m : Int, roundPrec p x =
      (m : Rat) * (2 : Rat) ^ (elog2 x - ((p - 1 : Nat) : Int)) := by
  rw [roundPrec_val p x hx0]
  by_cases hneg : x < 0
  · refine ⟨-(rne (|x| * (2 : Rat) ^ (-(elog2 x - ((p - 1 : Nat) : Int))))), ?_⟩
    rw [if_pos hneg]
    push_cast
    ring
  · refine ⟨rne (|x| * (2 : Rat) ^ (-(elog2 x - ((p - 1 : Nat) : Int)))), ?_⟩
    rw [if_neg hneg]
    ring

theorem roundPrec_err (p : Nat) (hp : 1 ≤ p) (x : Rat)
    (hx : (2 : Rat) ^ (-(200 : Int)) ≤ |x|) :
    |roundPrec p x - x| ≤ (2 : Rat) ^ (elog2 x - (p : Int)) := by
  have hx0 : x ≠ 0 := by
    intro h
    rw [h] at hx
    simp at hx
    have h2 : (0 : Rat) < (2 : Rat) ^ (-(200 : Int)) := zpow_pos (by norm_num) _
    linarith
  set e : Int := elog2 x - ((p - 1 : Nat) : Int) with he
  set E : Rat := (2 : Rat) ^ e with hE2
  set m : Int := rne (|x| * (2 : Rat) ^ (-e)) with hm
  have hE : (0 : Rat) < E := by
    rw [hE2]
    exact zpow_pos (by norm_num) _
  have hrne : abs ((m : Rat) - |x| * (2 : Rat) ^ (-e)) ≤ 1 / 2 := by
    rw [hm]
    exact rne_err _
  have key : abs ((m : Rat) * E - |x|) ≤ E / 2 := by
    have h1 : (m : Rat) * E - |x| = ((m : Rat) - |x| * (2 : Rat) ^ (-e)) * E := by
      rw [sub_mul]
      congr 1
      rw [hE2, mul_assoc, ← zpow_add₀ (by norm_num : (2 : Rat) ≠ 0)]
      simp
    rw [h1, abs_mul, abs_of_pos hE]
    calc abs ((m : Rat) - |x| * (2 : Rat) ^ (-e)) * E ≤ (1 / 2) * E :=
        mul_le_mul_of_nonneg_right hrne (le_of_lt hE)
      _ = E / 2 := by ring
  have hround : roundPrec p x = (if x < 0 then (-1 : Rat) else 1) * (m : Rat) * E := by
    rw [roundPrec_val p x hx0, hm, hE2, he]
  have hhalf : E / 2 = (2 : Rat) ^ (elog2 x - (p : Int)) := by
    have hcast : ((p - 1 : Nat) : Int) = (p : Int) - 1 := by
      rw [Nat.cast_sub hp]
      push_cast
      ring
    rw [hE2, he, hcast]
    rw [show elog2 x - ((p : Int) - 1) = elog2 x - (p : Int) + 1 from by ring]
    rw [zpow_add₀ (by norm_num : (2 : Rat) ≠ 0), zpow_one]
    ring
  rw [hround, ← hhalf]
  by_cases hneg : x < 0
  · rw [if_pos hneg]
    have habs : |x| = -x := abs_of_neg hneg
    have hsw : (-1 : Rat) * (m : Rat) * E - x = -((m : Rat) * E - |x|) := by
      rw [habs]
      ring
    rw [hsw, abs_neg]
    exact key
  · rw [if_neg hneg]
    have habs : |x| = x := abs_of_nonneg (not_lt.mp hneg)
    have hsw : (1 : Rat) * (m : Rat) * E - x = (m : Rat) * E - |x| := by
      rw [habs]
      ring
    rw [hsw]
    exact key

theorem roundPrec_err_of_lt (p : Nat) (hp : 1 ≤ p) (x : Rat) (k : Int)
    (hlow : (2 : Rat) ^ (-(200 : Int)) ≤ |x|) (hup : |x| < (2 : Rat) ^ k) :
    |roundPrec p x - x| ≤ (2 : Rat) ^ (k - 1 - (p : Int)) := by
  have h := roundPrec_err p hp x hlow
  have hel : elog2 x ≤ k - 1 := by
    by_contra hc
    push_neg at hc
    have h3 : (2 : Rat) ^ k ≤ (2 : Rat) ^ (elog2 x) :=
      zpow_le_zpow_right₀ (by norm_num) (by omega)
    have h4 := (elog2_spec x hlow).1
    linarith
  calc |roundPrec p x - x| ≤ (2 : Rat) ^ (elog2 x - (p : Int)) := h
    _ ≤ (2 : Rat) ^ (k - 1 - (p : Int)) :=
      zpow_le_zpow_right₀ (by norm_num) (by omega)

theorem c200_le : (2 : Rat) ^ (-(200 : Int)) ≤ 1 / 1000 := by
  have h1 : (2 : Rat) ^ (-(200 : Int)) = ((2 : Rat) ^ (200 : Nat))⁻¹ := by
    rw [← zpow_natCast (2 : Rat) 200, ← zpow_neg]
    norm_num
  rw [h1]
  rw [show (1 : Rat) / 1000 = ((1000 : Rat))⁻¹ by norm_num]
  apply inv_anti₀ (by norm_num)
  norm_num

theorem downcast_near (x : Rat) :
    |(toNumericDowncast x).1 - f64 x| ≤ 1 / 2000 ∧
    24 ≤ (if (toNumericDowncast x).2 = true then 24 else 53) := by
  unfold toNumericDowncast
  split
  · next h =>
    refine ⟨?_, by norm_num⟩
    exact le_trans h (by norm_num)
  · next h =>
    refine ⟨?_, by norm_num⟩
    simp

theorem npRound2_f32_err (p' : Nat) (hp : 24 ≤ p') (n : Int) (x' : Rat)
    (hn0 : n ≠ 0) (hnb : n.natAbs ≤ 2 ^ 22)
    (hx' : |x' - (n : Rat) / 100| ≤ 51 / 100000) :
    |f32 (npRound2 p' x') - (n : Rat) / 100| ≤ 1 / 256 := by
  have hp1 : 1 ≤ p' := by omega
  have hn1 : (1 : Rat) ≤ |(n : Rat)| := by
    have h := Int.one_le_abs hn0
    exact_mod_cast h
  have hn2 : |(n : Rat)| ≤ 4194304 := by
    have h : |n| ≤ (4194304 : Int) := by
      rw [Int.abs_eq_natAbs]
      exact_mod_cast le_trans hnb (by norm_num)
    exact_mod_cast h
  have hx_lo : (1 : Rat) / 100 ≤ |(n : Rat) / 100| := by
    rw [abs_div, abs_of_pos (by norm_num : (0 : Rat) < 100)]
    linarith
  have hx_hi : |(n : Rat) / 100| ≤ 4194304 / 100 := by
    rw [abs_div, abs_of_pos (by norm_num : (0 : Rat) < 100)]
    linarith
  have h1 : |x' * 100 - (n : Rat)| ≤ 51 / 1000 := by
    have heq : x' * 100 - (n : Rat) = (x' - (n : Rat) / 100) * 100 := by ring
    rw [heq, abs_mul, abs_of_pos (by norm_num : (0 : Rat) < 100)]
    calc |x' - (n : Rat) / 100| * 100 ≤ (51 / 100000) * 100 :=
        mul_le_mul_of_nonneg_right hx' (by norm_num)
      _ = 51 / 1000 := by norm_num
  have ht0_lo : (1 : Rat) / 1000 ≤ |x' * 100| := by
    have ha : |(n : Rat)| - |x' * 100| ≤ |x' * 100 - (n : Rat)| := by
      rw [abs_sub_comm]
      exact abs_sub_abs_le_abs_sub _ _
    linarith
  have ht0_hi : |x' * 100| < (2 : Rat) ^ (23 : Int) := by
    have ha : |x' * 100| - |(n : Rat)| ≤ |x' * 100 - (n : Rat)| :=
      abs_sub_abs_le_abs_sub _ _
    have hv : (2 : Rat) ^ (23 : Int) = 8388608 := by norm_num
    linarith
  have htmp : |roundPrec p' (x' * 100) - x' * 100| ≤ 1 / 4 := by
    have h := roundPrec_err_of_lt p' hp1 (x' * 100) 23
      (le_trans c200_le ht0_lo) ht0_hi
    have hb : (2 : Rat) ^ ((23 : Int) - 1 - (p' : Int)) ≤ 1 / 4 := by
      calc (2 : Rat) ^ ((23 : Int) - 1 - (p' : Int)) ≤ (2 : Rat) ^ (-(2 : Int)) :=
          zpow_le_zpow_right₀ (by norm_num) (by omega)
        _ = 1 / 4 := by norm_num
    exact le_trans h hb
  have hk : rne (roundPrec p' (x' * 100)) = n := by
    apply int_eq_of_rat_close
    have ha : |(rne (roundPrec p' (x' * 100)) : Rat) - roundPrec p' (x' * 100)| ≤
        1 / 2 := rne_err _
    have hb : |(rne (roundPrec p' (x' * 100)) : Rat) - (n : Rat)| ≤
        |(rne (roundPrec p' (x' * 100)) : Rat) - roundPrec p' (x' * 100)| +
        |roundPrec p' (x' * 100) - x' * 100| + |x' * 100 - (n : Rat)| := by
      calc |(rne (roundPrec p' (x' * 100)) : Rat) - (n : Rat)| ≤
          |(rne (roundPrec p' (x' * 100)) : Rat) - roundPrec p' (x' * 100)| +
          |roundPrec p' (x' * 100) - (n : Rat)| := abs_sub_le _ _ _
        _ ≤ _ := by
            have hc := abs_sub_le (roundPrec p' (x' * 100)) (x' * 100) ((n : Rat))
            linarith
    linarith
  have hres : npRound2 p' x' = roundPrec p' ((n : Rat) / 100) := by
    unfold npRound2
    rw [hk]
  have hres_err : |roundPrec p' ((n : Rat) / 100) - (n : Rat) / 100| ≤ 1 / 512 := by
    have h := roundPrec_err_of_lt p' hp1 ((n : Rat) / 100) 16
      (le_trans c200_le (by linarith)) (by
        have hv : (2 : Rat) ^ (16 : Int) = 65536 := by norm_num
        linarith)
    have hb : (2 : Rat) ^ ((16 : Int) - 1 - (p' : Int)) ≤ 1 / 512 := by
      calc (2 : Rat) ^ ((16 : Int) - 1 - (p' : Int)) ≤ (2 : Rat) ^ (-(9 : Int)) :=
          zpow_le_zpow_right₀ (by norm_num) (by omega)
        _ = 1 / 512 := by norm_num
    exact le_trans h hb
  have hy_lo : (1 : Rat) / 1000 ≤ |roundPrec p' ((n : Rat) / 100)| := by
    have ha : |(n : Rat) / 100| - |roundPrec p' ((n : Rat) / 100)| ≤
        |roundPrec p' ((n : Rat) / 100) - (n : Rat) / 100| := by
      rw [abs_sub_comm]
      exact abs_sub_abs_le_abs_sub _ _
    linarith
  have hy_hi : |roundPrec p' ((n : Rat) / 100)| < (2 : Rat) ^ (16 : Int) := by
    have ha : |roundPrec p' ((n : Rat) / 100)| - |(n : Rat) / 100| ≤
        |roundPrec p' ((n : Rat) / 100) - (n : Rat) / 100| :=
      abs_sub_abs_le_abs_sub _ _
    have hv : (2 : Rat) ^ (16 : Int) = 65536 := by norm_num
    linarith
  have hst : |f32 (roundPrec p' ((n : Rat) / 100)) -
      roundPrec p' ((n : Rat) / 100)| ≤ 1 / 512 := by
    have h := roundPrec_err_of_lt 24 (by norm_num) (roundPrec p' ((n : Rat) / 100))
      16 (le_trans c200_le hy_lo) hy_hi
    have hb : (2 : Rat) ^ ((16 : Int) - 1 - ((24 : Nat) : Int)) = 1 / 512 := by
      norm_num
    unfold f32
    linarith
  rw [hres]
  calc |f32 (roundPrec p' ((n : Rat) / 100)) - (n : Rat) / 100| ≤
      |f32 (roundPrec p' ((n : Rat) / 100)) - roundPrec p' ((n : Rat) / 100)| +
      |roundPrec p' ((n : Rat) / 100) - (n : Rat) / 100| := abs_sub_le _ _ _
    _ ≤ 1 / 512 + 1 / 512 := by linarith
    _ = 1 / 256 := by norm_num

theorem stored_core (n : Int) (hnb : n.natAbs ≤ 2 ^ 22) :
    |f32 (npRound2
        (if (toNumericDowncast ((n : Rat) / 100)).2 = true then 24 else 53)
        ((toNumericDowncast ((n : Rat) / 100)).1)) - (n : Rat) / 100| ≤ 1 / 256 := by
  by_cases hn0 : n = 0
  · subst hn0
    have hz : ∀ p, npRound2 p 0 = 0 := by
      intro p
      unfold npRound2
      rw [zero_mul, roundPrec_zero, show rne 0 = 0 from by simp [rne]]
      rw [show ((0 : Int) : Rat) / 100 = 0 by norm_num, roundPrec_zero]
    rw [show (((0 : Int) : Rat) / 100) = 0 by norm_num]
    have hdc : toNumericDowncast 0 = (0, true) := by
      unfold toNumericDowncast
      rw [show f64 0 = 0 from roundPrec_zero 53, show f32 0 = 0 from roundPrec_zero 24]
      norm_num
    rw [hdc]
    show |f32 (npRound2 24 0) - 0| ≤ 1 / 256
    rw [hz 24, show f32 0 = 0 from roundPrec_zero 24]
    norm_num
  · obtain ⟨hd1, hd2⟩ := downcast_near ((n : Rat) / 100)
    have hn1 : (1 : Rat) ≤ |(n : Rat)| := by
      have h := Int.one_le_abs hn0
      exact_mod_cast h
    have hx_lo : (1 : Rat) / 100 ≤ |(n : Rat) / 100| := by
      rw [abs_div, abs_of_pos (by norm_num : (0 : Rat) < 100)]
      linarith
    have hn2 : |(n : Rat)| ≤ 4194304 := by
      have h : |n| ≤ (4194304 : Int) := by
        rw [Int.abs_eq_natAbs]
        exact_mod_cast le_trans hnb (by norm_num)
      exact_mod_cast h
    have hx_hi : |(n : Rat) / 100| ≤ 4194304 / 100 := by
      rw [abs_div, abs_of_pos (by norm_num : (0 : Rat) < 100)]
      linarith
    have hf64 : |f64 ((n : Rat) / 100) - (n : Rat) / 100| ≤ 1 / 100000 := by
      have h := roundPrec_err_of_lt 53 (by norm_num) ((n : Rat) / 100) 16
        (le_trans c200_le (by linarith)) (by
          have hv : (2 : Rat) ^ (16 : Int) = 65536 := by norm_num
          linarith)
      have hb : (2 : Rat) ^ ((16 : Int) - 1 - ((53 : Nat) : Int)) ≤ 1 / 100000 := by
        norm_num
      exact le_trans h hb
    have hx' : |(toNumericDowncast ((n : Rat) / 100)).1 - (n : Rat) / 100| ≤
        51 / 100000 := by
      calc |(toNumericDowncast ((n : Rat) / 100)).1 - (n : Rat) / 100| ≤
          |(toNumericDowncast ((n : Rat) / 100)).1 - f64 ((n : Rat) / 100)| +
          |f64 ((n : Rat) / 100) - (n : Rat) / 100| := abs_sub_le _ _ _
        _ ≤ 51 / 100000 := by linarith
    exact npRound2_f32_err _ hd2 n _ hn0 hnb hx'

theorem stored_cex_core :
    f32 (npRound2
        (if (toNumericDowncast ((123456789 : Rat) / 100)).2 = true then 24 else 53)
        ((toNumericDowncast ((123456789 : Rat) / 100)).1)) ≠
      (123456789 : Rat) / 100 := by
  obtain ⟨hd1, hd2⟩ := downcast_near ((123456789 : Rat) / 100)
  set p' : Nat :=
    if (toNumericDowncast ((123456789 : Rat) / 100)).2 = true then 24 else 53
    with hp'def
  set x' : Rat := (toNumericDowncast ((123456789 : Rat) / 100)).1 with hx'def
  have hp1 : 1 ≤ p' := by omega
  have hxabs : |(123456789 : Rat) / 100| = 123456789 / 100 :=
    abs_of_pos (by norm_num)
  have hf64 : |f64 ((123456789 : Rat) / 100) - (123456789 : Rat) / 100| ≤
      1 / 100000 := by
    have h := roundPrec_err_of_lt 53 (by norm_num) ((123456789 : Rat) / 100) 21
      (le_trans c200_le (by rw [hxabs]; norm_num))
      (by rw [hxabs]; norm_num)
    have hb : (2 : Rat) ^ ((21 : Int) - 1 - ((53 : Nat) : Int)) ≤ 1 / 100000 := by
      norm_num
    exact le_trans h hb
  have hx'err : |x' - (123456789 : Rat) / 100| ≤ 51 / 100000 := by
    calc |x' - (123456789 : Rat) / 100| ≤
        |x' - f64 ((123456789 : Rat) / 100)| +
        |f64 ((123456789 : Rat) / 100) - (123456789 : Rat) / 100| :=
          abs_sub_le _ _ _
      _ ≤ 51 / 100000 := by linarith
  have h1 : |x' * 100 - (123456789 : Rat)| ≤ 51 / 1000 := by
    have heq : x' * 100 - (123456789 : Rat) =
        (x' - (123456789 : Rat) / 100) * 100 := by ring
    rw [heq, abs_mul, abs_of_pos (by norm_num : (0 : Rat) < 100)]
    calc |x' - (123456789 : Rat) / 100| * 100 ≤ (51 / 100000) * 100 :=
        mul_le_mul_of_nonneg_right hx'err (by norm_num)
      _ = 51 / 1000 := by norm_num
  have habsn : |(123456789 : Rat)| = 123456789 := abs_of_pos (by norm_num)
  have ht0_lo : (1 : Rat) / 1000 ≤ |x' * 100| := by
    have ha : |(123456789 : Rat)| - |x' * 100| ≤ |x' * 100 - (123456789 : Rat)| := by
      rw [abs_sub_comm]
      exact abs_sub_abs_le_abs_sub _ _
    linarith
  have ht0_hi : |x' * 100| < (2 : Rat) ^ (27 : Int) := by
    have ha : |x' * 100| - |(123456789 : Rat)| ≤ |x' * 100 - (123456789 : Rat)| :=
      abs_sub_abs_le_abs_sub _ _
    have hv : (2 : Rat) ^ (27 : Int) = 134217728 := by norm_num
    linarith
  have htmp : |roundPrec p' (x' * 100) - x' * 100| ≤ 4 := by
    have h := roundPrec_err_of_lt p' hp1 (x' * 100) 27
      (le_trans c200_le ht0_lo) ht0_hi
    have hb : (2 : Rat) ^ ((27 : Int) - 1 - (p' : Int)) ≤ 4 := by
      calc (2 : Rat) ^ ((27 : Int) - 1 - (p' : Int)) ≤ (2 : Rat) ^ ((2 : Int)) :=
          zpow_le_zpow_right₀ (by norm_num) (by omega)
        _ = 4 := by norm_num
    exact le_trans h hb
  have hk : |(rne (roundPrec p' (x' * 100)) : Rat) - (123456789 : Rat)| ≤ 5 := by
    have ha := rne_err (roundPrec p' (x' * 100))
    have hb := abs_sub_le (roundPrec p' (x' * 100)) (x' * 100) ((123456789 : Rat))
    have hc := abs_sub_le ((rne (roundPrec p' (x' * 100)) : Rat))
      (roundPrec p' (x' * 100)) ((123456789 : Rat))
    linarith
  have hy : |(rne (roundPrec p' (x' * 100)) : Rat) / 100 -
      (123456789 : Rat) / 100| ≤ 5 / 100 := by
    rw [show (rne (roundPrec p' (x' * 100)) : Rat) / 100 -
        (123456789 : Rat) / 100 =
        ((rne (roundPrec p' (x' * 100)) : Rat) - (123456789 : Rat)) / 100 from by
      ring]
    rw [abs_div, abs_of_pos (by norm_num : (0 : Rat) < 100)]
    linarith
  have hy_lo : (1 : Rat) / 1000 ≤ |(rne (roundPrec p' (x' * 100)) : Rat) / 100| := by
    have ha : |(123456789 : Rat) / 100| -
        |(rne (roundPrec p' (x' * 100)) : Rat) / 100| ≤
        |(rne (roundPrec p' (x' * 100)) : Rat) / 100 - (123456789 : Rat) / 100| := by
      rw [abs_sub_comm]
      exact abs_sub_abs_le_abs_sub _ _
    rw [hxabs] at ha
    linarith
  have hy_hi : |(rne (roundPrec p' (x' * 100)) : Rat) / 100| <
      (2 : Rat) ^ (21 : Int) := by
    have ha : |(rne (roundPrec p' (x' * 100)) : Rat) / 100| -
        |(123456789 : Rat) / 100| ≤
        |(rne (roundPrec p' (x' * 100)) : Rat) / 100 - (123456789 : Rat) / 100| :=
      abs_sub_abs_le_abs_sub _ _
    rw [hxabs] at ha
    have hv : (2 : Rat) ^ (21 : Int) = 2097152 := by norm_num
    linarith
  have hres_err : |roundPrec p' ((rne (roundPrec p' (x' * 100)) : Rat) / 100) -
      (rne (roundPrec p' (x' * 100)) : Rat) / 100| ≤ 1 / 16 := by
    have h := roundPrec_err_of_lt p' hp1
      ((rne (roundPrec p' (x' * 100)) : Rat) / 100) 21
      (le_trans c200_le hy_lo) hy_hi
    have hb : (2 : Rat) ^ ((21 : Int) - 1 - (p' : Int)) ≤ 1 / 16 := by
      calc (2 : Rat) ^ ((21 : Int) - 1 - (p' : Int)) ≤ (2 : Rat) ^ (-(4 : Int)) :=
          zpow_le_zpow_right₀ (by norm_num) (by omega)
        _ = 1 / 16 := by norm_num
    exact le_trans h hb
  have hnp : npRound2 p' x' =
      roundPrec p' ((rne (roundPrec p' (x' * 100)) : Rat) / 100) := rfl
  have hres_x : |npRound2 p' x' - (123456789 : Rat) / 100| ≤ 12 / 100 := by
    rw [hnp]
    have h := abs_sub_le
      (roundPrec p' ((rne (roundPrec p' (x' * 100)) : Rat) / 100))
      ((rne (roundPrec p' (x' * 100)) : Rat) / 100) ((123456789 : Rat) / 100)
    linarith
  have hs_lo : (2 : Rat) ^ ((20 : Int)) ≤ |npRound2 p' x'| := by
    have ha : |(123456789 : Rat) / 100| - |npRound2 p' x'| ≤
        |npRound2 p' x' - (123456789 : Rat) / 100| := by
      rw [abs_sub_comm]
      exact abs_sub_abs_le_abs_sub _ _
    rw [hxabs] at ha
    have hv : (2 : Rat) ^ ((20 : Int)) = 1048576 := by norm_num
    linarith
  have hs_hi : |npRound2 p' x'| < (2 : Rat) ^ ((20 : Int) + 1) := by
    have ha : |npRound2 p' x'| - |(123456789 : Rat) / 100| ≤
        |npRound2 p' x' - (123456789 : Rat) / 100| :=
      abs_sub_abs_le_abs_sub _ _
    rw [hxabs] at ha
    have hv : (2 : Rat) ^ ((20 : Int) + 1) = 2097152 := by norm_num
    linarith
  have h20v : (2 : Rat) ^ ((20 : Int)) = 1048576 := by norm_num
  have helog : elog2 (npRound2 p' x') = 20 :=
    elog2_eq_of _ 20 (le_trans c200_le (by linarith)) hs_lo hs_hi
  have hne0 : npRound2 p' x' ≠ 0 := by
    intro h0
    rw [h0] at hs_lo
    simp at hs_lo
    linarith
  obtain ⟨m, hm⟩ := roundPrec_dyadic 24 (npRound2 p' x') hne0
  rw [helog] at hm
  rw [show ((24 - 1 : Nat) : Int) = 23 by norm_num] at hm
  rw [show (2 : Rat) ^ ((20 : Int) - 23) = 1 / 8 by norm_num] at hm
  intro hcontra
  unfold f32 at hcontra
  rw [hm] at hcontra
  have hint : (m : Rat) * 100 = 987654312 := by linarith
  have hint2 : m * 100 = (987654312 : Int) := by exact_mod_cast hint
  omega

/-- Claim C10 counterexample: the claim demands the stored amount equal n
divided by one hundred rounded to two decimal places for all magnitudes, but
at n = 123456789 the value 1234567.89 must pass the float pipeline into the
32-bit FLOAT amount column, whose values near two to the twentieth are
multiples of one eighth; 1234567.89 is not such a multiple, so the stored
value differs from it. -/
theorem amount_float32_cex :
    storedAmount 123456789 ≠ some (round2 ((123456789 : Rat) / 100)) := by
  have hcast : ((123456789 : Int) : Rat) = (123456789 : Rat) := by norm_num
  have hs : storedAmount 123456789 = some (f32 (npRound2
      (if (toNumericDowncast ((123456789 : Rat) / 100)).2 = true then 24 else 53)
      ((toNumericDowncast ((123456789 : Rat) / 100)).1))) := by
    unfold storedAmount
    rw [parseDecimal_strip_format 123456789, hcast]
    rfl
  have hr2 : round2 ((123456789 : Rat) / 100) = (123456789 : Rat) / 100 := by
    rw [show ((123456789 : Rat)) = ((123456789 : Int) : Rat) from by norm_num]
    exact round2_cents 123456789
  rw [hs, hr2]
  intro h
  exact stored_cex_core (Option.some_inj.mp h)

/-- Claim C10 amended: the decimal literal built by FORMAT has its thousands
separators stripped and parses to exactly n divided by one hundred; the value
is then carried through binary floats and stored in the 32-bit FLOAT amount
column, so it represents that quotient only up to float32 precision: for
amounts up to two to the twenty-second cents the stored value is within one
256th of the quotient and reading it at two decimal places recovers the
quotient exactly, but exact recovery fails at large magnitudes. -/
theorem amount_cent_recovery (n : Int) (hn : n.natAbs ≤ 2 ^ 22) :
    parseDecimal (stripCommas (formatAmount n)) = some ((n : Rat) / 100) ∧
    ∃ a, storedAmount n = some a ∧
      |a - (n : Rat) / 100| ≤ 1 / 256 ∧ round2 a = (n : Rat) / 100 := by
  refine ⟨parseDecimal_strip_format n, ?_⟩
  have hs : storedAmount n = some (f32 (npRound2
      (if (toNumericDowncast ((n : Rat) / 100)).2 = true then 24 else 53)
      ((toNumericDowncast ((n : Rat) / 100)).1))) := by
    unfold storedAmount
    rw [parseDecimal_strip_format n]
    rfl
  have hcore := stored_core n hn
  exact ⟨_, hs, hcore,
    round2_recover _ n (lt_of_le_of_lt hcore (by norm_num))⟩

/-- Witness for the amended C10 at an amount of 1234.56. -/
theorem amount_cent_recovery_witness :
    parseDecimal (stripCommas (formatAmount 123456)) =
      some (((123456 : Int) : Rat) / 100) ∧
    ∃ a, storedAmount 123456 = some a ∧
      |a - ((123456 : Int) : Rat) / 100| ≤ 1 / 256 ∧
      round2 a = ((123456 : Int) : Rat) / 100 :=
  amount_cent_recovery 123456 (by norm_num)
